import Mathlib

set_option linter.unusedSectionVars false

/-!
# Verification of the simple A-shares quant system

A shallow embedding, in Lean 4, of the core of the repository
`simple-a-shares-quant-system`:

* `src/backtest.py` — `BacktestEngine` (`_prepare_data`, `_rebalance`,
  `_calculate_total_value`, `get_metrics`);
* `src/strategy.py` — `StopLossRotationStrategy` and
  `FactorFloorRotationStrategy` (`on_data_loaded`, `get_target_weights`).

Modelling conventions, fixed once for the whole file:

* Python floats are modelled by `ℚ` (exact field arithmetic); a float value
  that can be `NaN` is modelled by `Option ℚ`, with `none` standing for `NaN`
  (and for a missing key where the source treats the two alike).
* `numpy.sqrt` (used inside `pandas` `std`/`corr` and hence inside the factor
  and correlation pipelines) is an arbitrary function `sqrtQ : ℚ → ℚ` passed
  as a parameter: the theorems below hold for every choice of `sqrtQ`, and the
  concrete witnesses instantiate it.
* Trading dates are modelled by their position `t : ℕ` in the aligned
  calendar `0, 1, …, T-1` (the sorted union of the input date indices); the
  claims under study quantify over inputs sharing one calendar.
* Python `dict`s keyed by asset are modelled as total functions with the
  source's `.get(key, 0)` default behaviour, or as association lists where
  iteration order matters.
-/

namespace QuantSys

/-! ## Portfolio ledger (`src/backtest.py`)

The account state of `BacktestEngine`: `cash`, `positions` (shares per
asset), `asset_cost_basis` and `asset_pnl`.  The Python dicts default to `0`
for absent keys (`.get(asset, 0)`), so total functions are a faithful model.
The asset universe is a finite type `A`. -/

structure Ledger (A : Type) where
  cash : ℚ
  positions : A → ℚ
  costBasis : A → ℚ
  pnl : A → ℚ

variable {A : Type} [DecidableEq A] [Fintype A]

/-- One summand of `BacktestEngine._calculate_total_value`: the loop body
`if shares != 0: price = prices.get(asset, 0); if not pd.isna(price):
val += shares * price`.  A missing key yields `0` (hence adds `shares * 0`),
a `NaN` price is skipped; both are `none` here. -/
def posVal (prices : A → Option ℚ) (L : Ledger A) (a : A) : ℚ :=
  if L.positions a ≠ 0 then
    match prices a with
    | some p => L.positions a * p
    | none => 0
  else 0

/-- `BacktestEngine._calculate_total_value`: cash plus the value of every
position with a non-NaN price.  The Python loop runs over the positions
dict; summing over the whole (finite) asset universe is equivalent because
absent keys carry `0` shares and contribute `0`. -/
def totalValue (prices : A → Option ℚ) (L : Ledger A) : ℚ :=
  L.cash + ∑ a, posVal prices L a

/-- The execution price the sell loops read: `current_prices.get(asset, 0)`;
a missing key or a `NaN` both fail the subsequent `price > 0` test, exactly
as `getD 0 = 0` does here. -/
def priceD (prices : A → Option ℚ) (a : A) : ℚ :=
  (prices a).getD 0

/-- Guard of the two sell loops of `BacktestEngine._rebalance`
(the `if not target_weights:` liquidation loop and the trailing
"assets not in target_weights" loop): the asset is not a key of
`target_weights`, its share count is strictly positive, and its execution
price is strictly positive.  With `targets = []` this is exactly the
liquidation loop's guard. -/
def sellCond (targets : List (A × ℚ)) (prices : A → Option ℚ) (L : Ledger A)
    (a : A) : Bool :=
  !(decide (a ∈ targets.map Prod.fst)) && decide (0 < L.positions a)
    && decide (0 < priceD prices a)

/-- Cash credited for one asset by a sell loop: `value - commission`
with `value = shares * price` and `commission = value * commission_rate`;
`0` when the guard fails. -/
def sellGain (rate : ℚ) (targets : List (A × ℚ)) (prices : A → Option ℚ)
    (L : Ledger A) (a : A) : ℚ :=
  if sellCond targets prices L a then
    L.positions a * priceD prices a - L.positions a * priceD prices a * rate
  else 0

/-- Effect of a sell loop of `_rebalance` on the whole ledger.  Each loop
iteration touches a distinct asset and only adds to `cash`, so the loop's
effect is order-independent and equal to this simultaneous update: `cash`
gains the sum of the per-asset proceeds, sold positions drop to `0`, the
realized P&L of each sold asset grows by
`(price - cost_basis) * shares - commission`, and cost bases are untouched. -/
def sellAbsent (rate : ℚ) (targets : List (A × ℚ)) (prices : A → Option ℚ)
    (L : Ledger A) : Ledger A where
  cash := L.cash + ∑ a, sellGain rate targets prices L a
  positions := fun a => if sellCond targets prices L a then 0 else L.positions a
  costBasis := L.costBasis
  pnl := fun a =>
    if sellCond targets prices L a then
      L.pnl a + (priceD prices a - L.costBasis a) * L.positions a
        - L.positions a * priceD prices a * rate
    else L.pnl a

/-- One iteration of the `for asset, weight in target_weights.items():` loop
of `_rebalance`: skip on a missing/NaN price, on `price <= 0`, and on
`diff_shares == 0`; otherwise trade to `target_shares = equity*weight/price`,
paying `|trade_value| * rate` commission, updating the volume-weighted
average cost basis on buys and realizing P&L on sells.  `E` is the total
equity computed once before the loop. -/
def tradeStep (E rate : ℚ) (prices : A → Option ℚ) (L : Ledger A)
    (aw : A × ℚ) : Ledger A :=
  match prices aw.1 with
  | none => L
  | some p =>
    if p ≤ 0 then L
    else
      let a := aw.1
      let targetShares := E * aw.2 / p
      let cur := L.positions a
      let diff := targetShares - cur
      if diff = 0 then L
      else
        let tradeVal := diff * p
        let comm := |tradeVal| * rate
        if 0 < diff then
          { cash := L.cash - (tradeVal + comm)
            positions := Function.update L.positions a (cur + diff)
            costBasis := Function.update L.costBasis a
              (if 0 < cur + diff then
                (L.costBasis a * cur + p * diff) / (cur + diff) else 0)
            pnl := Function.update L.pnl a (L.pnl a - comm) }
        else
          { cash := L.cash - (tradeVal + comm)
            positions := Function.update L.positions a (cur + diff)
            costBasis := L.costBasis
            pnl := Function.update L.pnl a
              (L.pnl a + (p - L.costBasis a) * (-diff) - comm) }

/-- The target-weights loop of `_rebalance`, folded over the items of the
`target_weights` dict in iteration order. -/
def rebalanceTrades (E rate : ℚ) (prices : A → Option ℚ)
    (targets : List (A × ℚ)) (L : Ledger A) : Ledger A :=
  targets.foldl (tradeStep E rate prices) L

/-- `BacktestEngine._rebalance`: return unchanged on non-positive equity;
with an empty target mapping run the liquidation loop (which coincides with
the "absent from targets" sell loop at `targets = []`); otherwise run the
target-weights trade loop and then sell every held asset absent from the
target keys. -/
def rebalance (rate : ℚ) (targets : List (A × ℚ)) (prices : A → Option ℚ)
    (L : Ledger A) : Ledger A :=
  let E := totalValue prices L
  if E ≤ 0 then L
  else if targets.isEmpty then sellAbsent rate [] prices L
  else sellAbsent rate targets prices (rebalanceTrades E rate prices targets L)

/-! ## Rotation strategies (`src/strategy.py`)

`StopLossRotationStrategy.on_data_loaded` aligns the close-price columns,
computes daily returns, a momentum/volatility factor, rolling pairwise
correlations, and then folds over the calendar computing a selection per
day.  `FactorFloorRotationStrategy.on_data_loaded` repeats the same
pipeline with an extra factor-floor filter (its restriction of `data_map`
to the sector pool is modelled by the choice of the `assets` column list).

The parameter record below fixes everything except the raw close-price
data, which stays a separate argument so that the no-look-ahead claim can
compare two data maps over the same calendar. -/

structure RotParams (A : Type) where
  /-- Columns of the aligned close table, in `data_map` iteration order. -/
  assets : List A
  /-- Number of rows of the aligned calendar (dates are positions `< T`). -/
  T : ℕ
  m : ℕ
  n : ℕ
  k : ℕ
  corrThreshold : ℚ
  stopLossPct : ℚ
  /-- `numpy` square root as used inside `pandas` `std`/`corr`. -/
  sqrtQ : ℚ → ℚ

/-- `pandas` forward fill along the calendar: the value at `t` is the raw
value at `t` if present, else the last present value before `t`. -/
def ffill (s : ℕ → Option ℚ) : ℕ → Option ℚ
  | 0 => s 0
  | t + 1 =>
    match s (t + 1) with
    | some v => some v
    | none => ffill s t

/-- `prices.pct_change().fillna(0)`: the aligned table is
`pd.concat(dfs, axis=1).sort_index().ffill()`, modelled as `ffill (raw a)`; the daily return at `t` is
`p_t/p_{t-1} - 1`, and `0` wherever `pct_change` yields `NaN` (row `0` and
rows before the asset's first observation).  A zero previous price would
produce a float infinity in the source; the model maps it to `0` and the
claims are read over data with nonzero prices, as traded price series are. -/
def dailyRet (raw : A → ℕ → Option ℚ) (a : A) : ℕ → ℚ
  | 0 => 0
  | t + 1 =>
    match ffill (raw a) t, ffill (raw a) (t + 1) with
    | some p0, some p1 => if p0 = 0 then 0 else p1 / p0 - 1
    | _, _ => 0

/-- Mean of the trailing window of length `w` ending at `t` of a (total)
daily series. -/
def windowMean (f : ℕ → ℚ) (t w : ℕ) : ℚ :=
  (∑ j ∈ Finset.range w, f (t - j)) / (w : ℚ)

/-- Sample variance (`ddof = 1`, as `pandas` `std`) of the trailing window
of length `w` ending at `t`. -/
def windowVar (f : ℕ → ℚ) (t w : ℕ) : ℚ :=
  (∑ j ∈ Finset.range w, (f (t - j) - windowMean f t w) ^ 2) / ((w : ℚ) - 1)

/-- Sample covariance (`ddof = 1`) of two trailing windows of length `w`
ending at `t`. -/
def windowCov (f g : ℕ → ℚ) (t w : ℕ) : ℚ :=
  (∑ j ∈ Finset.range w,
    (f (t - j) - windowMean f t w) * (g (t - j) - windowMean g t w))
    / ((w : ℚ) - 1)

/-- `daily_rets.rolling(n).std()` at `(t, a)`: defined once the window
holds `n` observations (`t + 1 ≥ n`; the daily-return series is total
after `fillna(0)`), `NaN` (`none`) earlier and for `n ≤ 1` (sample std of
fewer than two observations). -/
def rollingVol (P : RotParams A) (raw : A → ℕ → Option ℚ) (a : A) (t : ℕ) :
    Option ℚ :=
  if t + 1 < P.n ∨ P.n ≤ 1 then none
  else some (P.sqrtQ (windowVar (dailyRet raw a) t P.n))

/-- `prices / prices.shift(n) - 1` at `(t, a)`: `NaN` for `t < n` and
whenever either aligned price is `NaN`.  A zero price `n` days back would
produce a float infinity in the source; the model maps it to `NaN` and the
claims are read over data with nonzero prices. -/
def rollingRet (P : RotParams A) (raw : A → ℕ → Option ℚ) (a : A) (t : ℕ) :
    Option ℚ :=
  if t < P.n then none
  else
    match ffill (raw a) (t - P.n), ffill (raw a) t with
    | some p0, some p1 => if p0 = 0 then none else some (p1 / p0 - 1)
    | _, _ => none

/-- `self.factors = rolling_return / rolling_vol.replace(0, np.nan)`:
`NaN` when either operand is `NaN` or the volatility is zero. -/
def factorAt (P : RotParams A) (raw : A → ℕ → Option ℚ) (a : A) (t : ℕ) :
    Option ℚ :=
  match rollingRet P raw a t, rollingVol P raw a t with
  | some r, some v => if v = 0 then none else some (r / v)
  | _, _ => none

/-- `daily_rets.rolling(k).corr()` at date `t` for the pair `(a, b)`:
Pearson correlation `cov/(std_a*std_b)` of the trailing `k`-day
daily-return windows, `NaN` before `k` observations exist, for `k ≤ 1`,
and when either window is constant (zero standard deviation). -/
def corrAt (P : RotParams A) (raw : A → ℕ → Option ℚ) (a b : A) (t : ℕ) :
    Option ℚ :=
  if t + 1 < P.k ∨ P.k ≤ 1 then none
  else if P.sqrtQ (windowVar (dailyRet raw a) t P.k)
      * P.sqrtQ (windowVar (dailyRet raw b) t P.k) = 0 then none
  else some (windowCov (dailyRet raw a) (dailyRet raw b) t P.k
    / (P.sqrtQ (windowVar (dailyRet raw a) t P.k)
      * P.sqrtQ (windowVar (dailyRet raw b) t P.k)))

/-- The correlation test of the selection loop:
`c = curr_corr.loc[asset, selected_asset]; c > self.corr_threshold`.
A `NaN` correlation compares as not-greater, exactly as the float
comparison does. -/
def corrGT (P : RotParams A) (raw : A → ℕ → Option ℚ) (t : ℕ) (a b : A) :
    Bool :=
  match corrAt P raw a b t with
  | some c => decide (P.corrThreshold < c)
  | none => false

/-- The greedy selection loop shared by both `on_data_loaded` methods:
scan the factor-sorted candidates, stop once `M` assets are selected, skip
a candidate correlated above the threshold with an already selected asset.
The source's `asset in curr_corr.index and selected_asset in
curr_corr.columns` guard always holds (the rolling-correlation table
carries every price column) and is omitted. -/
def greedyGo (m : ℕ) (bad : A → A → Bool) : List A → List A → List A
  | [], sel => sel
  | a :: rest, sel =>
    if m ≤ sel.length then sel
    else if sel.any (fun s => bad a s) then greedyGo m bad rest sel
    else greedyGo m bad rest (sel ++ [a])

/-- `self.factors.loc[date].dropna().drop(stopped_assets, errors='ignore')`
as an association list in column order: the assets with a defined factor at
`t` that are not stop-loss-excluded, with their factor values. -/
def dayFactors (P : RotParams A) (raw : A → ℕ → Option ℚ) (t : ℕ)
    (stopped : List A) : List (A × ℚ) :=
  P.assets.filterMap fun a =>
    match factorAt P raw a t with
    | some v => if a ∈ stopped then none else some (a, v)
    | none => none

/-- `day_factors.sort_values(ascending=False)`.  `pandas` leaves the order
of tied values implementation-defined; the model uses a stable insertion
sort, and no claim under study depends on the tie-break. -/
def sortByFactorDesc (l : List (A × ℚ)) : List (A × ℚ) :=
  List.insertionSort (fun x y : A × ℚ => y.2 ≤ x.2) l

/-- Steps 5c–5d of the selection: sort the candidates by factor descending
and run the greedy correlation-filtered scan. -/
def selectAt (P : RotParams A) (raw : A → ℕ → Option ℚ) (t : ℕ)
    (cands : List (A × ℚ)) : List A :=
  greedyGo P.m (fun a s => corrGT P raw t a s)
    ((sortByFactorDesc cands).map Prod.fst) []

/-- Step 5a: the previously selected assets whose realized daily return on
`t` fell below `-stop_loss_pct` (an empty `prev_selected` yields the empty
set; every previously selected asset is a price column). -/
def stoppedOf (P : RotParams A) (raw : A → ℕ → Option ℚ) (prev : List A)
    (t : ℕ) : List A :=
  prev.filter fun a => decide (dailyRet raw a t < -P.stopLossPct)

/-- One loop iteration of `StopLossRotationStrategy.on_data_loaded` step 5:
`none` when `day_factors` is empty (no `signals` entry is written for `t`),
otherwise the greedy selection.  The `rolling_corr.loc[date]` `KeyError`
branch is dead code — the rolling-correlation frame has a row block for
every price-index date — and is not modelled. -/
def stepSL (P : RotParams A) (raw : A → ℕ → Option ℚ) (t : ℕ)
    (prev : List A) : Option (List A) :=
  let df := dayFactors P raw t (stoppedOf P raw prev t)
  if df.isEmpty then none else some (selectAt P raw t df)

/-- `prev_selected` as it stands before the loop processes date `t`
(`valid_dates = prices.index[max(n, k):]`, so nothing has run before
position `max n k` and `prev_selected` is `[]` there; an empty
`day_factors` resets it to `[]`). -/
def prevSL (P : RotParams A) (raw : A → ℕ → Option ℚ) : ℕ → List A
  | 0 => []
  | t + 1 =>
    if t + 1 ≤ max P.n P.k then []
    else (stepSL P raw t (prevSL P raw t)).getD []

/-- `self.signals` of `StopLossRotationStrategy` after `on_data_loaded`:
an entry exists only for processed dates (`max n k ≤ t < T`) on which
`day_factors` was nonempty. -/
def signalsSL (P : RotParams A) (raw : A → ℕ → Option ℚ) (t : ℕ) :
    Option (List A) :=
  if max P.n P.k ≤ t ∧ t < P.T then stepSL P raw t (prevSL P raw t) else none

/-- `self.stopped_assets_log`: one entry per processed date. -/
def stoppedLogSL (P : RotParams A) (raw : A → ℕ → Option ℚ) (t : ℕ) :
    Option (List A) :=
  if max P.n P.k ≤ t ∧ t < P.T then
    some (stoppedOf P raw (prevSL P raw t) t)
  else none

/-- `StopLossRotationStrategy.get_target_weights(date)`: empty outside the
calendar (`get_loc` raises) and at position `0`; otherwise equal weight
`1/len(selected)` over the signal of the previous calendar position, empty
when that signal is absent or empty. -/
def targetWeightsSL (P : RotParams A) (raw : A → ℕ → Option ℚ) (i : ℕ) :
    List (A × ℚ) :=
  if P.T ≤ i then []
  else if i = 0 then []
  else
    match signalsSL P raw (i - 1) with
    | some sel =>
      if sel.isEmpty then []
      else sel.map fun a => (a, 1 / (sel.length : ℚ))
    | none => []

/-- Step 5c of `FactorFloorRotationStrategy.on_data_loaded`: the
candidates surviving the factor floor (`day_factors >= factor_floor`). -/
def dayFactorsFF (P : RotParams A) (raw : A → ℕ → Option ℚ) (floor : ℚ)
    (t : ℕ) (stopped : List A) : List (A × ℚ) :=
  (dayFactors P raw t stopped).filter fun av => decide (floor ≤ av.2)

/-- `self.filtered_assets_log[date]`: the candidates dropped by the factor
floor (`day_factors < factor_floor`). -/
def filteredOfFF (P : RotParams A) (raw : A → ℕ → Option ℚ) (floor : ℚ)
    (t : ℕ) (stopped : List A) : List A :=
  ((dayFactors P raw t stopped).filter fun av => decide (av.2 < floor)).map
    Prod.fst

/-- One loop iteration of `FactorFloorRotationStrategy.on_data_loaded`:
unlike the stop-loss variant it always writes a `signals` entry, `[]` when
the floored candidate list is empty. -/
def stepFF (P : RotParams A) (raw : A → ℕ → Option ℚ) (floor : ℚ) (t : ℕ)
    (prev : List A) : List A :=
  let df := dayFactorsFF P raw floor t (stoppedOf P raw prev t)
  if df.isEmpty then [] else selectAt P raw t df

/-- `prev_selected` of the factor-floor variant before processing `t`. -/
def prevFF (P : RotParams A) (raw : A → ℕ → Option ℚ) (floor : ℚ) :
    ℕ → List A
  | 0 => []
  | t + 1 =>
    if t + 1 ≤ max P.n P.k then []
    else stepFF P raw floor t (prevFF P raw floor t)

/-- `self.signals` of `FactorFloorRotationStrategy`: an entry (possibly
`[]`) for every processed date. -/
def signalsFF (P : RotParams A) (raw : A → ℕ → Option ℚ) (floor : ℚ)
    (t : ℕ) : Option (List A) :=
  if max P.n P.k ≤ t ∧ t < P.T then
    some (stepFF P raw floor t (prevFF P raw floor t))
  else none

/-- `FactorFloorRotationStrategy.get_target_weights(date)`: as the
stop-loss variant but with the fixed weight `1/M`, leaving unfilled slots
as implicit cash. -/
def targetWeightsFF (P : RotParams A) (raw : A → ℕ → Option ℚ) (floor : ℚ)
    (i : ℕ) : List (A × ℚ) :=
  if P.T ≤ i then []
  else if i = 0 then []
  else
    match signalsFF P raw floor (i - 1) with
    | some sel =>
      if sel.isEmpty then []
      else sel.map fun a => (a, 1 / (P.m : ℚ))
    | none => []

/-! ## Performance metrics (`BacktestEngine.get_metrics`)

The metric values use float `**` (annualization exponent `252/days`) and
`numpy.sqrt`; both stay parameters (`rpow`, `sqrtQ`), as the claim under
study concerns which metrics the mapping contains.  A value that can be
`NaN` is `Option ℚ` as everywhere in this file. -/

/-- Tail of `pct_change` over the recorded equity values: each entry is
`x/prev - 1`.  A zero previous value would be a float infinity in the
source; the model yields `0` there and equity values are positive in any
run the claim quantifies over. -/
def pctGo (prev : ℚ) : List ℚ → List ℚ
  | [] => []
  | x :: xs => (if prev = 0 then 0 else x / prev - 1) :: pctGo x xs

/-- `df['total_value'].pct_change().fillna(0)`: the first row's `NaN`
becomes `0`. -/
def pctChangeFill0 : List ℚ → List ℚ
  | [] => []
  | x :: xs => 0 :: pctGo x xs

def listMean (l : List ℚ) : ℚ := l.sum / (l.length : ℚ)

/-- Sample variance with `ddof = 1`, as `pandas` `std` squares to. -/
def listVar (l : List ℚ) : ℚ :=
  (l.map fun x => (x - listMean l) ^ 2).sum / ((l.length : ℚ) - 1)

def cummaxGo (cur : ℚ) : List ℚ → List ℚ
  | [] => []
  | x :: xs => max cur x :: cummaxGo (max cur x) xs

/-- `wealth.cummax()`. -/
def cummax : List ℚ → List ℚ
  | [] => []
  | x :: xs => x :: cummaxGo x xs

/-- `.min()` of a (nonempty) series. -/
def minList : List ℚ → ℚ
  | [] => 0
  | x :: xs => xs.foldl min x

/-- `BacktestEngine.get_metrics`: empty mapping for an empty history;
otherwise exactly four entries — annualized return, max drawdown, Sortino
ratio and Calmar ratio — in the order the source dict lists them.  The
Sortino ratio is `NaN` when exactly one daily return is negative (sample
std of one observation is `NaN`, and `NaN != 0` holds in float, so the
division is taken); the running-peak division assumes the positive equity
values of a real run. -/
def getMetrics (rpow : ℚ → ℚ → ℚ) (sqrtQ : ℚ → ℚ) (initialCapital : ℚ) :
    List ℚ → List (String × Option ℚ)
  | [] => []
  | x :: xs =>
    let values := x :: xs
    let returns := pctChangeFill0 values
    let totalRet := (values.getLast?.getD 0) / initialCapital - 1
    let days := values.length
    let annRet := rpow (1 + totalRet) (252 / (days : ℚ)) - 1
    let rf : ℚ := 1 / 100
    let negative := returns.filter fun r => decide (r < 0)
    let downsideVol : Option ℚ :=
      if negative.length = 0 then some 0
      else if negative.length = 1 then none
      else some (sqrtQ (listVar negative) * sqrtQ 252)
    let sortino : Option ℚ :=
      match downsideVol with
      | some d => if d = 0 then some 0 else some ((annRet - rf) / d)
      | none => none
    let maxDD := minList (List.zipWith (fun w p => (w - p) / p) values (cummax values))
    let calmar := if maxDD = 0 then 0 else annRet / |maxDD|
    [("Annualized Return", some annRet),
     ("Max Drawdown", some maxDD),
     ("Sortino Ratio", sortino),
     ("Calmar Ratio", some calmar)]

/-! ## Data preparation (`BacktestEngine._prepare_data`)

Input frames carry their column-name list and their raw open/close series
over the calendar (positions in the sorted union of all dates, as in the
strategy model); `_prepare_data` keeps the assets having both an `open`
and a `close` column, aligns and forward-fills them, and truncates rows
before the start date (modelled as `none` before `startDate`). -/

structure PyFrame where
  cols : List String
  openS : ℕ → Option ℚ
  closeS : ℕ → Option ℚ

/-- A raised Python exception: class name and message. -/
structure PyErr where
  exnClass : String
  msg : String

structure AlignedData (A : Type) where
  availableAssets : List A
  alignedOpen : A → ℕ → Option ℚ
  alignedClose : A → ℕ → Option ℚ

/-- `'open' in df.columns and 'close' in df.columns`. -/
def hasPriceCols (f : PyFrame) : Bool :=
  decide ("open" ∈ f.cols) && decide ("close" ∈ f.cols)

def lookupFrame (dm : List (A × PyFrame)) (a : A) : Option PyFrame :=
  (dm.find? fun p => decide (p.1 = a)).map Prod.snd

/-- `BacktestEngine._prepare_data`: `raise ValueError("No valid data
found")` when no asset has both price columns, else the aligned,
forward-filled, start-truncated open/close tables with
`available_assets` in column order. -/
def prepareData (startDate : ℕ) (dm : List (A × PyFrame)) :
    Except PyErr (AlignedData A) :=
  let valid := dm.filter fun p => hasPriceCols p.2
  if valid.isEmpty then Except.error ⟨"ValueError", "No valid data found"⟩
  else Except.ok
    { availableAssets := valid.map Prod.fst
      alignedOpen := fun a t =>
        if t < startDate then none
        else
          match lookupFrame valid a with
          | some f => ffill f.openS t
          | none => none
      alignedClose := fun a t =>
        if t < startDate then none
        else
          match lookupFrame valid a with
          | some f => ffill f.closeS t
          | none => none }

/-! ## Concrete data for witnesses and counterexamples -/

def c3prices : Fin 1 → Option ℚ := fun _ => some 10

def c3ledger : Ledger (Fin 1) :=
  { cash := 100, positions := fun _ => 0, costBasis := fun _ => 0
    pnl := fun _ => 0 }

def c3targets : List (Fin 1 × ℚ) := [(0, 1/2)]

def c4prices : Fin 1 → Option ℚ := fun _ => none

def c4ledger : Ledger (Fin 1) :=
  { cash := 1, positions := fun _ => 1, costBasis := fun _ => 0
    pnl := fun _ => 0 }

def c4aprices : Fin 1 → Option ℚ := fun _ => some 2

def c4aledger : Ledger (Fin 1) :=
  { cash := 0, positions := fun _ => 3, costBasis := fun _ => 0
    pnl := fun _ => 0 }

def c10prices : Fin 2 → Option ℚ := fun a => if a = 0 then some (-1) else some 10

def c10ledger : Ledger (Fin 2) :=
  { cash := 5, positions := fun a => if a = 0 then 2 else 0
    costBasis := fun _ => 0, pnl := fun _ => 0 }

def c10targets : List (Fin 2 × ℚ) := [(1, 1/2)]

/-- Two-asset, four-day rotation scenario shared by the strategy
witnesses (`sqrtQ` instantiated with the identity; the theorems hold for
every square-root routine). -/
def wP : RotParams (Fin 2) :=
  { assets := [0, 1], T := 4, m := 2, n := 2, k := 2
    corrThreshold := 9/10, stopLossPct := 1/20, sqrtQ := fun q => q }

def wraw : Fin 2 → ℕ → Option ℚ := fun a t =>
  if a = 0 then
    some (if t = 0 then 1 else if t = 1 then 2 else if t = 2 then 2 else 3)
  else
    some (if t = 0 then 1 else if t = 1 then 1 else if t = 2 then 3/2 else 1)

/-- `wraw` with every value from position `3` on replaced. -/
def wraw2 : Fin 2 → ℕ → Option ℚ := fun a t =>
  if t = 3 then some 100 else wraw a t

/-- Asset `1` has no observation before position `2`. -/
def c8raw : Fin 2 → ℕ → Option ℚ := fun a t =>
  if a = 0 then some (if t = 0 then 1 else 2)
  else if t < 2 then none else some 1

def c5powEx : ℚ → ℚ → ℚ := fun a _ => a

def c5sqrtEx : ℚ → ℚ := fun q => q

def c5hist : List ℚ := [100000, 101000]

def c9frameBad : PyFrame :=
  { cols := ["close"], openS := fun _ => none, closeS := fun _ => some 1 }

def c9dmBad : List (Fin 1 × PyFrame) := [(0, c9frameBad)]

def c9frameGood : PyFrame :=
  { cols := ["open", "close"], openS := fun _ => some 1
    closeS := fun _ => some 2 }

def c9dmGood : List (Fin 1 × PyFrame) := [(0, c9frameGood)]

/-! ### Ledger lemmas -/

/-- `posVal` is just `shares * price-with-default-0`: the `shares ≠ 0` test
and the `NaN` skip of the source loop both collapse to multiplication by
the defaulted price. -/
theorem posVal_eq (prices : A → Option ℚ) (L : Ledger A) (a : A) :
    posVal prices L a = L.positions a * priceD prices a := by
  unfold posVal priceD
  cases h : prices a with
  | none =>
    by_cases hz : L.positions a = 0 <;> simp [hz]
  | some p =>
    by_cases hz : L.positions a = 0 <;> simp [hz]

theorem totalValue_eq (prices : A → Option ℚ) (L : Ledger A) :
    totalValue prices L = L.cash + ∑ a, L.positions a * priceD prices a := by
  unfold totalValue
  simp only [posVal_eq]

/-- A sell loop conserves total equity evaluated at the execution prices
when the commission rate is zero: each sold asset's position value moves
one-for-one into cash. -/
theorem totalValue_sellAbsent (targets : List (A × ℚ)) (prices : A → Option ℚ)
    (L : Ledger A) :
    totalValue prices (sellAbsent 0 targets prices L) = totalValue prices L := by
  rw [totalValue_eq, totalValue_eq]
  show L.cash + (∑ a, sellGain 0 targets prices L a)
      + ∑ a, (sellAbsent 0 targets prices L).positions a * priceD prices a
      = L.cash + ∑ a, L.positions a * priceD prices a
  rw [add_assoc, ← Finset.sum_add_distrib]
  congr 1
  apply Finset.sum_congr rfl
  intro a _
  unfold sellGain sellAbsent
  by_cases h : sellCond targets prices L a = true
  · simp only [h, if_pos]
    ring
  · simp only [h]
    simp

/-- A single iteration of the target-weights loop conserves total equity at
zero commission: the cash delta `-(diff*price)` cancels the position-value
delta `diff*price`. -/
theorem totalValue_tradeStep (E : ℚ) (prices : A → Option ℚ) (L : Ledger A)
    (aw : A × ℚ) :
    totalValue prices (tradeStep E 0 prices L aw) = totalValue prices L := by
  unfold tradeStep
  cases hp : prices aw.1 with
  | none => rfl
  | some p =>
    by_cases hle : p ≤ 0
    · simp [hle]
    · simp only [hle, if_false]
      by_cases hd : E * aw.2 / p - L.positions aw.1 = 0
      · simp [hd]
      · simp only [hd, if_false]
        by_cases hpos : 0 < E * aw.2 / p - L.positions aw.1
        · simp only [hpos, if_true]
          rw [totalValue_eq, totalValue_eq]
          simp only [mul_zero, abs_zero]
          rw [Finset.sum_eq_sum_diff_singleton_add (Finset.mem_univ aw.1),
            Finset.sum_eq_sum_diff_singleton_add (Finset.mem_univ aw.1)
              (fun a => L.positions a * priceD prices a)]
          have hframe : ∀ b ∈ Finset.univ \ {aw.1},
              Function.update L.positions aw.1
                  (L.positions aw.1 + (E * aw.2 / p - L.positions aw.1)) b
                * priceD prices b
              = L.positions b * priceD prices b := by
            intro b hb
            rw [Finset.mem_sdiff, Finset.mem_singleton] at hb
            rw [Function.update_noteq hb.2]
          rw [Finset.sum_congr rfl hframe]
          rw [Function.update_same]
          unfold priceD
          rw [hp]
          simp only [Option.getD_some]
          ring
        · simp only [hpos, if_false]
          rw [totalValue_eq, totalValue_eq]
          simp only [mul_zero, abs_zero]
          rw [Finset.sum_eq_sum_diff_singleton_add (Finset.mem_univ aw.1),
            Finset.sum_eq_sum_diff_singleton_add (Finset.mem_univ aw.1)
              (fun a => L.positions a * priceD prices a)]
          have hframe : ∀ b ∈ Finset.univ \ {aw.1},
              Function.update L.positions aw.1
                  (L.positions aw.1 + (E * aw.2 / p - L.positions aw.1)) b
                * priceD prices b
              = L.positions b * priceD prices b := by
            intro b hb
            rw [Finset.mem_sdiff, Finset.mem_singleton] at hb
            rw [Function.update_noteq hb.2]
          rw [Finset.sum_congr rfl hframe]
          rw [Function.update_same]
          unfold priceD
          rw [hp]
          simp only [Option.getD_some]
          ring

/-- The whole target-weights loop conserves total equity at zero
commission. -/
theorem totalValue_rebalanceTrades (E : ℚ) (prices : A → Option ℚ)
    (targets : List (A × ℚ)) (L : Ledger A) :
    totalValue prices (rebalanceTrades E 0 prices targets L)
      = totalValue prices L := by
  induction targets generalizing L with
  | nil => rfl
  | cons hd tl ih =>
    unfold rebalanceTrades at ih ⊢
    rw [List.foldl_cons, ih, totalValue_tradeStep]

/-- Per-asset frame of one trade-loop iteration: an iteration for the pair
`aw` never touches the books of a different asset `a`. -/
theorem tradeStep_frame (E rate : ℚ) (prices : A → Option ℚ) (L : Ledger A)
    (aw : A × ℚ) (a : A) (hne : aw.1 ≠ a) :
    (tradeStep E rate prices L aw).positions a = L.positions a ∧
    (tradeStep E rate prices L aw).costBasis a = L.costBasis a ∧
    (tradeStep E rate prices L aw).pnl a = L.pnl a := by
  unfold tradeStep
  cases hp : prices aw.1 with
  | none => exact ⟨rfl, rfl, rfl⟩
  | some p =>
    by_cases hle : p ≤ 0
    · simp [hle]
    · simp only [hle, if_false]
      by_cases hd : E * aw.2 / p - L.positions aw.1 = 0
      · simp [hd]
      · simp only [hd, if_false]
        by_cases hpos : 0 < E * aw.2 / p - L.positions aw.1 <;>
          simp [hpos, Function.update_noteq (Ne.symm hne)]

/-- Per-asset frame of the whole trade loop for an asset that is not a key
of the target mapping. -/
theorem rebalanceTrades_frame (E rate : ℚ) (prices : A → Option ℚ)
    (targets : List (A × ℚ)) (L : Ledger A) (a : A)
    (h : a ∉ targets.map Prod.fst) :
    (rebalanceTrades E rate prices targets L).positions a = L.positions a ∧
    (rebalanceTrades E rate prices targets L).costBasis a = L.costBasis a ∧
    (rebalanceTrades E rate prices targets L).pnl a = L.pnl a := by
  induction targets generalizing L with
  | nil => exact ⟨rfl, rfl, rfl⟩
  | cons hd tl ih =>
    rw [List.map_cons, List.mem_cons] at h
    push_neg at h
    obtain ⟨hhd, htl⟩ := h
    have step := tradeStep_frame E rate prices L hd a (fun he => hhd he.symm)
    have rest := ih htl (L := tradeStep E rate prices L hd)
    unfold rebalanceTrades at rest ⊢
    rw [List.foldl_cons]
    exact ⟨rest.1.trans step.1, rest.2.1.trans step.2.1, rest.2.2.trans step.2.2⟩

/-! ### Claim theorems about the ledger -/

/-- **C3.** Value conservation: with `commission_rate = 0`, for every ledger
state with positive total equity and every target-weight mapping whose
nonnegative weights sum to at most `1`, the total equity evaluated at the
execution (open) prices immediately after `_rebalance` equals the total
equity at those same prices immediately before. -/
theorem c3_value_conservation (targets : List (A × ℚ))
    (prices : A → Option ℚ) (L : Ledger A)
    (hE : 0 < totalValue prices L)
    (_hw : ∀ aw ∈ targets, 0 ≤ aw.2)
    (_hsum : (targets.map Prod.snd).sum ≤ 1) :
    totalValue prices (rebalance 0 targets prices L) = totalValue prices L := by
  unfold rebalance
  rw [if_neg (not_le.mpr hE)]
  by_cases hemp : targets.isEmpty
  · rw [if_pos hemp, totalValue_sellAbsent]
  · rw [if_neg hemp, totalValue_sellAbsent, totalValue_rebalanceTrades]

/-- Witness for C3 at a concrete ledger and target mapping. -/
theorem c3_value_conservation_witness :
    0 < totalValue c3prices c3ledger ∧
    (c3targets.map Prod.snd).sum ≤ 1 ∧
    totalValue c3prices (rebalance 0 c3targets c3prices c3ledger)
      = totalValue c3prices c3ledger :=
  ⟨by norm_num [totalValue, posVal, c3prices, c3ledger],
    by norm_num [c3targets],
    c3_value_conservation c3targets c3prices c3ledger
      (by norm_num [totalValue, posVal, c3prices, c3ledger])
      (by norm_num [c3targets])
      (by norm_num [c3targets])⟩

/-- **C4, counterexample.** The claim "for every ledger state, `_rebalance`
with an empty target mapping drives every position's share count to zero"
fails at a concrete state: with one share held, cash `1`, and no execution
price for the asset (`NaN`/missing), total equity is `1 > 0`, the
liquidation loop runs, but the `price > 0` guard skips the asset, so its
share count stays `1`. -/
theorem c4_roundtrip_counterexample :
    c4ledger.positions 0 = 1 ∧
    (rebalance (3/10000) [] c4prices c4ledger).positions 0 = 1 := by
  constructor
  · rfl
  · norm_num [rebalance, totalValue, posVal, sellAbsent, sellCond, sellGain,
      priceD, c4prices, c4ledger]

/-- **C4, amended.** Round-trip liquidation holds once the guards of the
liquidation loop are satisfiable for every held asset: for every ledger
state with positive total equity, nonnegative share counts, and a positive
execution price for every asset with a positive share count, `_rebalance`
with `target_weights = {}` drives every share count to zero and credits
cash with each position's value net of commission. -/
theorem c4_roundtrip_amended (rate : ℚ) (prices : A → Option ℚ)
    (L : Ledger A)
    (hE : 0 < totalValue prices L)
    (hnn : ∀ a, 0 ≤ L.positions a)
    (hp : ∀ a, 0 < L.positions a → 0 < priceD prices a) :
    (∀ a, (rebalance rate [] prices L).positions a = 0) ∧
    (rebalance rate [] prices L).cash
      = L.cash + ∑ a, L.positions a * priceD prices a * (1 - rate) := by
  have hzero : ∀ a, sellCond ([] : List (A × ℚ)) prices L a = false →
      L.positions a = 0 := by
    intro a hc
    rcases lt_or_eq_of_le (hnn a) with hlt | heq
    · exfalso
      have : sellCond ([] : List (A × ℚ)) prices L a = true := by
        unfold sellCond
        simp [hlt, hp a hlt]
      rw [this] at hc
      simp at hc
    · exact heq.symm
  unfold rebalance
  rw [if_neg (not_le.mpr hE), if_pos (by rfl)]
  constructor
  · intro a
    show (if sellCond ([] : List (A × ℚ)) prices L a then 0
      else L.positions a) = 0
    by_cases hc : sellCond ([] : List (A × ℚ)) prices L a
    · rw [if_pos hc]
    · rw [if_neg hc]
      exact hzero a (Bool.not_eq_true _ ▸ hc)
  · show L.cash + (∑ a, sellGain rate [] prices L a) = _
    congr 1
    apply Finset.sum_congr rfl
    intro a _
    unfold sellGain
    by_cases hc : sellCond ([] : List (A × ℚ)) prices L a
    · rw [if_pos hc]
      ring
    · rw [if_neg hc]
      rw [hzero a (Bool.not_eq_true _ ▸ hc)]
      ring

/-- Witness for the amended C4 at a concrete ledger: three shares at
price `2` liquidate to `6·(1 - 3/10000) = 29991/5000` of cash. -/
theorem c4_roundtrip_amended_witness :
    0 < totalValue c4aprices c4aledger ∧
    (rebalance (3/10000) [] c4aprices c4aledger).positions 0 = 0 ∧
    (rebalance (3/10000) [] c4aprices c4aledger).cash = 29991/5000 := by
  have h := c4_roundtrip_amended (3/10000) c4aprices c4aledger
    (by norm_num [totalValue, posVal, c4aprices, c4aledger])
    (by intro a; norm_num [c4aledger])
    (by intro a _; norm_num [priceD, c4aprices])
  refine ⟨by norm_num [totalValue, posVal, c4aprices, c4aledger], h.1 0, ?_⟩
  rw [h.2]
  norm_num [c4aledger, c4aprices, priceD, Fin.sum_univ_one]

/-- **C10.** Implicit liquidation edge case: in any rebalance, an asset that
is not a key of the target mapping and whose execution price is missing,
`NaN`, or non-positive is left entirely unchanged — share count, cost
basis, and cumulative realized P&L keep their values, and the sell loop's
cash contribution for that asset is `0` whatever ledger state the loop
reads. -/
theorem c10_missing_price_frame (rate : ℚ) (targets : List (A × ℚ))
    (prices : A → Option ℚ) (L : Ledger A) (a : A)
    (hkey : a ∉ targets.map Prod.fst)
    (hbad : prices a = none ∨ ∃ p, prices a = some p ∧ p ≤ 0) :
    (rebalance rate targets prices L).positions a = L.positions a ∧
    (rebalance rate targets prices L).costBasis a = L.costBasis a ∧
    (rebalance rate targets prices L).pnl a = L.pnl a ∧
    (∀ M : Ledger A, sellGain rate targets prices M a = 0) := by
  have hple : priceD prices a ≤ 0 := by
    unfold priceD
    rcases hbad with h | ⟨p, hp, hle⟩
    · rw [h]; exact le_refl 0
    · rw [hp]; exact hle
  have hcond : ∀ (tg : List (A × ℚ)) (M : Ledger A),
      a ∉ tg.map Prod.fst → sellCond tg prices M a = false := by
    intro tg M _
    unfold sellCond
    simp [not_lt.mpr hple]
  have hgain : ∀ M : Ledger A, sellGain rate targets prices M a = 0 := by
    intro M
    unfold sellGain
    rw [hcond targets M hkey]
    simp
  have hsell : ∀ (tg : List (A × ℚ)) (M : Ledger A), a ∉ tg.map Prod.fst →
      (sellAbsent rate tg prices M).positions a = M.positions a ∧
      (sellAbsent rate tg prices M).costBasis a = M.costBasis a ∧
      (sellAbsent rate tg prices M).pnl a = M.pnl a := by
    intro tg M hk
    have hc := hcond tg M hk
    unfold sellAbsent
    simp [hc]
  have hmain : (rebalance rate targets prices L).positions a = L.positions a ∧
      (rebalance rate targets prices L).costBasis a = L.costBasis a ∧
      (rebalance rate targets prices L).pnl a = L.pnl a := by
    unfold rebalance
    by_cases hE : totalValue prices L ≤ 0
    · rw [if_pos hE]
      exact ⟨rfl, rfl, rfl⟩
    · rw [if_neg hE]
      by_cases hemp : targets.isEmpty
      · rw [if_pos hemp]
        exact hsell [] L (by simp)
      · rw [if_neg hemp]
        have hfr := rebalanceTrades_frame (totalValue prices L) rate prices
          targets L a hkey
        have hs := hsell targets
          (rebalanceTrades (totalValue prices L) rate prices targets L) hkey
        exact ⟨hs.1.trans hfr.1, hs.2.1.trans hfr.2.1, hs.2.2.trans hfr.2.2⟩
  exact ⟨hmain.1, hmain.2.1, hmain.2.2, hgain⟩

/-- Witness for C10 at a concrete rebalance with a non-positive price. -/
theorem c10_missing_price_frame_witness :
    (rebalance (3/10000) c10targets c10prices c10ledger).positions 0
        = c10ledger.positions 0 ∧
    (rebalance (3/10000) c10targets c10prices c10ledger).costBasis 0
        = c10ledger.costBasis 0 ∧
    (rebalance (3/10000) c10targets c10prices c10ledger).pnl 0
        = c10ledger.pnl 0 ∧
    sellGain (3/10000) c10targets c10prices c10ledger 0 = 0 := by
  have h := c10_missing_price_frame (3/10000) c10targets c10prices c10ledger 0
    (by decide) (Or.inr ⟨-1, rfl, by norm_num⟩)
  exact ⟨h.1, h.2.1, h.2.2.1, h.2.2.2 c10ledger⟩

/-! ### Selection lemmas -/

/-- Everything the greedy scan returns comes from the accumulator or the
candidate list. -/
theorem greedyGo_subset (m : ℕ) (bad : A → A → Bool) (l sel : List A) :
    ∀ x ∈ greedyGo m bad l sel, x ∈ sel ∨ x ∈ l := by
  induction l generalizing sel with
  | nil =>
    intro x hx
    exact Or.inl hx
  | cons a rest ih =>
    intro x hx
    unfold greedyGo at hx
    by_cases hm : m ≤ sel.length
    · rw [if_pos hm] at hx
      exact Or.inl hx
    · rw [if_neg hm] at hx
      by_cases hb : sel.any (fun s => bad a s) = true
      · rw [if_pos hb] at hx
        rcases ih sel x hx with h | h
        · exact Or.inl h
        · exact Or.inr (List.mem_cons_of_mem a h)
      · rw [if_neg hb] at hx
        rcases ih (sel ++ [a]) x hx with h | h
        · rcases List.mem_append.mp h with h' | h'
          · exact Or.inl h'
          · rw [List.mem_singleton] at h'
            exact Or.inr (h' ▸ List.mem_cons_self a rest)
        · exact Or.inr (List.mem_cons_of_mem a h)

/-- The greedy scan never selects more than `m` assets. -/
theorem greedyGo_length (m : ℕ) (bad : A → A → Bool) (l sel : List A) :
    (greedyGo m bad l sel).length ≤ max sel.length m := by
  induction l generalizing sel with
  | nil => exact le_max_left _ _
  | cons a rest ih =>
    unfold greedyGo
    by_cases hm : m ≤ sel.length
    · rw [if_pos hm]
      exact le_max_left _ _
    · rw [if_neg hm]
      by_cases hb : sel.any (fun s => bad a s) = true
      · rw [if_pos hb]
        exact ih sel
      · rw [if_neg hb]
        have hlt : sel.length + 1 ≤ m := Nat.succ_le_of_lt (Nat.lt_of_not_le hm)
        calc (greedyGo m bad rest (sel ++ [a])).length
            ≤ max (sel ++ [a]).length m := ih (sel ++ [a])
          _ = max (sel.length + 1) m := by simp
          _ = m := max_eq_right hlt
          _ ≤ max sel.length m := le_max_right _ _

/-- Selection invariant of the greedy scan: a candidate is only appended
after the `is_correlated` check against every already-selected asset, so
the result is pairwise `bad`-free (later element against earlier). -/
theorem greedyGo_pairwise (m : ℕ) (bad : A → A → Bool) (l sel : List A)
    (h : sel.Pairwise fun x y => bad y x = false) :
    (greedyGo m bad l sel).Pairwise fun x y => bad y x = false := by
  induction l generalizing sel with
  | nil => exact h
  | cons a rest ih =>
    unfold greedyGo
    by_cases hm : m ≤ sel.length
    · rw [if_pos hm]
      exact h
    · rw [if_neg hm]
      by_cases hb : sel.any (fun s => bad a s) = true
      · rw [if_pos hb]
        exact ih sel h
      · rw [if_neg hb]
        apply ih
        rw [List.pairwise_append]
        refine ⟨h, List.pairwise_singleton _ _, ?_⟩
        intro x hx y hy
        rw [List.mem_singleton] at hy
        subst hy
        cases hba : bad y x with
        | false => rfl
        | true => exact absurd (List.any_eq_true.mpr ⟨x, hx, hba⟩) hb

/-- Unpacking membership in the candidate association list: the asset is a
column, its factor is defined at `t`, and it is not stop-loss-excluded. -/
theorem mem_dayFactors {P : RotParams A} {raw : A → ℕ → Option ℚ} {t : ℕ}
    {stopped : List A} {p : A × ℚ} (hp : p ∈ dayFactors P raw t stopped) :
    p.1 ∈ P.assets ∧ factorAt P raw p.1 t = some p.2 ∧ p.1 ∉ stopped := by
  unfold dayFactors at hp
  rw [List.mem_filterMap] at hp
  obtain ⟨a, ha, hfa⟩ := hp
  cases hf : factorAt P raw a t with
  | none =>
    simp only [hf] at hfa
    exact absurd hfa (by simp)
  | some v =>
    simp only [hf] at hfa
    by_cases hmem : a ∈ stopped
    · simp only [hmem, if_true] at hfa
      exact absurd hfa (by simp)
    · simp only [hmem, if_false] at hfa
      obtain rfl : (a, v) = p := Option.some_injective _ hfa
      exact ⟨ha, hf, hmem⟩

/-- Everything the selection step returns is a candidate. -/
theorem mem_selectAt {P : RotParams A} {raw : A → ℕ → Option ℚ} {t : ℕ}
    {cands : List (A × ℚ)} {x : A} (hx : x ∈ selectAt P raw t cands) :
    ∃ v, (x, v) ∈ cands := by
  unfold selectAt at hx
  rcases greedyGo_subset _ _ _ _ x hx with h | h
  · exact absurd h (List.not_mem_nil x)
  · rw [List.mem_map] at h
    obtain ⟨p, hp, rfl⟩ := h
    have hmem : p ∈ cands :=
      (List.perm_insertionSort (fun x y : A × ℚ => y.2 ≤ x.2) cands).mem_iff.mp hp
    exact ⟨p.2, by rwa [Prod.mk.eta]⟩

theorem windowCov_comm (f g : ℕ → ℚ) (t w : ℕ) :
    windowCov f g t w = windowCov g f t w := by
  unfold windowCov
  congr 1
  apply Finset.sum_congr rfl
  intro j _
  ring

/-- The modelled correlation matrix is symmetric, as a Pearson matrix is. -/
theorem corrAt_symm (P : RotParams A) (raw : A → ℕ → Option ℚ) (a b : A)
    (t : ℕ) : corrAt P raw a b t = corrAt P raw b a t := by
  unfold corrAt
  rw [windowCov_comm, mul_comm (P.sqrtQ (windowVar (dailyRet raw a) t P.k))]

theorem corrGT_symm (P : RotParams A) (raw : A → ℕ → Option ℚ) (t : ℕ)
    (a b : A) : corrGT P raw t a b = corrGT P raw t b a := by
  unfold corrGT
  rw [corrAt_symm]

theorem selectAt_length (P : RotParams A) (raw : A → ℕ → Option ℚ) (t : ℕ)
    (cands : List (A × ℚ)) : (selectAt P raw t cands).length ≤ P.m := by
  have h := greedyGo_length P.m (fun a s => corrGT P raw t a s)
    ((sortByFactorDesc cands).map Prod.fst) []
  simpa [selectAt] using h

theorem selectAt_pairwise (P : RotParams A) (raw : A → ℕ → Option ℚ)
    (t : ℕ) (cands : List (A × ℚ)) :
    ∀ x ∈ selectAt P raw t cands, ∀ y ∈ selectAt P raw t cands,
      x ≠ y → corrGT P raw t x y = false := by
  have hpw := greedyGo_pairwise P.m (fun a s => corrGT P raw t a s)
    ((sortByFactorDesc cands).map Prod.fst) [] List.Pairwise.nil
  have hpw2 : (selectAt P raw t cands).Pairwise
      (fun x y => corrGT P raw t x y = false ∧ corrGT P raw t y x = false) := by
    refine List.Pairwise.imp ?_ hpw
    intro x y hxy
    refine ⟨?_, hxy⟩
    rw [corrGT_symm]
    exact hxy
  have hsymm : Symmetric
      (fun x y : A => corrGT P raw t x y = false ∧ corrGT P raw t y x = false) :=
    fun u v huv => ⟨huv.2, huv.1⟩
  intro x hx y hy hne
  exact ((List.Pairwise.forall hsymm hpw2) hx hy hne).1

/-- A member of a stop-loss-variant signal comes from a candidate pair of
that day. -/
theorem signalsSL_mem_dayFactors {P : RotParams A} {raw : A → ℕ → Option ℚ}
    {t : ℕ} {sel : List A} (hsig : signalsSL P raw t = some sel) {a : A}
    (ha : a ∈ sel) :
    ∃ v, (a, v) ∈ dayFactors P raw t (stoppedOf P raw (prevSL P raw t) t) := by
  unfold signalsSL at hsig
  by_cases hproc : max P.n P.k ≤ t ∧ t < P.T
  · rw [if_pos hproc] at hsig
    simp only [stepSL] at hsig
    by_cases hemp :
        (dayFactors P raw t (stoppedOf P raw (prevSL P raw t) t)).isEmpty
    · rw [if_pos hemp] at hsig
      exact absurd hsig (by simp)
    · rw [if_neg hemp] at hsig
      obtain rfl := Option.some_injective _ hsig
      exact mem_selectAt ha
  · rw [if_neg hproc] at hsig
    exact absurd hsig (by simp)

/-! ### Claim theorems about the selection -/

/-- **C2.** Selection invariant: any signal entry of the stop-loss variant
or the factor-floor variant for a date `t` holds at most `M` assets, and no
two distinct selected assets have a trailing-`K`-day correlation above the
threshold at `t` (a `NaN` correlation is not above the threshold, matching
the source's float comparison). -/
theorem c2_selection_invariant (P : RotParams A) (raw : A → ℕ → Option ℚ)
    (floor : ℚ) (t : ℕ) (sel : List A)
    (hsig : signalsSL P raw t = some sel ∨ signalsFF P raw floor t = some sel) :
    sel.length ≤ P.m ∧
      ∀ x ∈ sel, ∀ y ∈ sel, x ≠ y → corrGT P raw t x y = false := by
  rcases hsig with h | h
  · unfold signalsSL at h
    by_cases hproc : max P.n P.k ≤ t ∧ t < P.T
    · rw [if_pos hproc] at h
      simp only [stepSL] at h
      by_cases hemp :
          (dayFactors P raw t (stoppedOf P raw (prevSL P raw t) t)).isEmpty
      · rw [if_pos hemp] at h
        exact absurd h (by simp)
      · rw [if_neg hemp] at h
        obtain rfl := Option.some_injective _ h
        exact ⟨selectAt_length P raw t _, selectAt_pairwise P raw t _⟩
    · rw [if_neg hproc] at h
      exact absurd h (by simp)
  · unfold signalsFF at h
    by_cases hproc : max P.n P.k ≤ t ∧ t < P.T
    · rw [if_pos hproc] at h
      obtain rfl := Option.some_injective _ h
      simp only [stepFF]
      by_cases hemp : (dayFactorsFF P raw floor t
          (stoppedOf P raw (prevFF P raw floor t) t)).isEmpty
      · rw [if_pos hemp]
        exact ⟨by simp, by simp⟩
      · rw [if_neg hemp]
        exact ⟨selectAt_length P raw t _, selectAt_pairwise P raw t _⟩
    · rw [if_neg hproc] at h
      exact absurd h (by simp)

/-- **C6.** Stop-loss exclusion: for a processed date `t`, any asset in
`prev_selected` whose realized daily return on `t` fell below
`-stop_loss_pct` is recorded in `stopped_assets_log[t]` and does not appear
in `signals[t]`, whatever its factor rank. -/
theorem c6_stop_loss_exclusion (P : RotParams A) (raw : A → ℕ → Option ℚ)
    (t : ℕ) (a : A)
    (hproc : max P.n P.k ≤ t ∧ t < P.T)
    (hprev : a ∈ prevSL P raw t)
    (hdrop : dailyRet raw a t < -P.stopLossPct) :
    (∃ st, stoppedLogSL P raw t = some st ∧ a ∈ st) ∧
    ∀ sel, signalsSL P raw t = some sel → a ∉ sel := by
  have hstopped : a ∈ stoppedOf P raw (prevSL P raw t) t := by
    unfold stoppedOf
    rw [List.mem_filter]
    exact ⟨hprev, by simpa using hdrop⟩
  constructor
  · refine ⟨stoppedOf P raw (prevSL P raw t) t, ?_, hstopped⟩
    unfold stoppedLogSL
    rw [if_pos hproc]
  · intro sel hsig ha
    obtain ⟨v, hv⟩ := signalsSL_mem_dayFactors hsig ha
    exact (mem_dayFactors hv).2.2 hstopped

/-- **C8.** Insufficient history: if asset `a` has fewer than `N` days of
raw price data up to date `t` (no observation at any `s ≤ t + 1 - N`), its
momentum factor at `t` is undefined (`NaN`), so it is absent from the
day's ranking and never appears in the signal selected for `t`; the
condition degrades to "not selected", never to an error, since every
function involved is total. -/
theorem c8_insufficient_history (P : RotParams A) (raw : A → ℕ → Option ℚ)
    (a : A) (t : ℕ)
    (hshort : ∀ s, s + P.n ≤ t + 1 → raw a s = none) :
    factorAt P raw a t = none ∧
    ∀ sel, signalsSL P raw t = some sel → a ∉ sel := by
  have hffnone : ∀ u, (∀ s, s ≤ u → raw a s = none) → ffill (raw a) u = none := by
    intro u
    induction u with
    | zero =>
      intro h
      unfold ffill
      exact h 0 (le_refl 0)
    | succ v ih =>
      intro h
      unfold ffill
      rw [h (v + 1) (le_refl _)]
      exact ih fun s hs => h s (Nat.le_succ_of_le hs)
  have hret : rollingRet P raw a t = none := by
    unfold rollingRet
    by_cases hlt : t < P.n
    · rw [if_pos hlt]
    · rw [if_neg hlt]
      have hnone : ffill (raw a) (t - P.n) = none := by
        apply hffnone
        intro s hs
        apply hshort
        omega
      rw [hnone]
  have hfac : factorAt P raw a t = none := by
    unfold factorAt
    rw [hret]
  refine ⟨hfac, ?_⟩
  intro sel hsig ha
  obtain ⟨v, hv⟩ := signalsSL_mem_dayFactors hsig ha
  have := (mem_dayFactors hv).2.1
  rw [hfac] at this
  exact absurd this (by simp)

/-! ### No-look-ahead congruence chain

Every stage of `on_data_loaded` reads only rows at or before the row it
writes; the lemmas below push that fact through the pipeline. -/

theorem ffill_congr {r₁ r₂ : ℕ → Option ℚ} :
    ∀ {t : ℕ}, (∀ s, s ≤ t → r₁ s = r₂ s) → ffill r₁ t = ffill r₂ t := by
  intro t
  induction t with
  | zero =>
    intro h
    unfold ffill
    exact h 0 (le_refl 0)
  | succ v ih =>
    intro h
    unfold ffill
    rw [h (v + 1) (le_refl _)]
    cases r₂ (v + 1) with
    | some val => rfl
    | none => exact ih fun s hs => h s (Nat.le_succ_of_le hs)

theorem dailyRet_congr {raw₁ raw₂ : A → ℕ → Option ℚ} {a : A} {t : ℕ}
    (h : ∀ s, s ≤ t → raw₁ a s = raw₂ a s) :
    dailyRet raw₁ a t = dailyRet raw₂ a t := by
  cases t with
  | zero => rfl
  | succ v =>
    simp only [dailyRet]
    rw [ffill_congr (fun s hs => h s (Nat.le_succ_of_le hs)),
      ffill_congr (fun s hs => h s hs)]

theorem windowMean_congr {f g : ℕ → ℚ} {t w : ℕ}
    (h : ∀ s, s ≤ t → f s = g s) : windowMean f t w = windowMean g t w := by
  unfold windowMean
  congr 1
  apply Finset.sum_congr rfl
  intro j _
  exact h (t - j) (Nat.sub_le t j)

theorem windowVar_congr {f g : ℕ → ℚ} {t w : ℕ}
    (h : ∀ s, s ≤ t → f s = g s) : windowVar f t w = windowVar g t w := by
  unfold windowVar
  congr 1
  apply Finset.sum_congr rfl
  intro j _
  rw [h (t - j) (Nat.sub_le t j), windowMean_congr h]

theorem windowCov_congr {f₁ g₁ f₂ g₂ : ℕ → ℚ} {t w : ℕ}
    (hf : ∀ s, s ≤ t → f₁ s = f₂ s) (hg : ∀ s, s ≤ t → g₁ s = g₂ s) :
    windowCov f₁ g₁ t w = windowCov f₂ g₂ t w := by
  unfold windowCov
  congr 1
  apply Finset.sum_congr rfl
  intro j _
  rw [hf (t - j) (Nat.sub_le t j), hg (t - j) (Nat.sub_le t j),
    windowMean_congr hf, windowMean_congr hg]

theorem rollingVol_congr {P : RotParams A} {raw₁ raw₂ : A → ℕ → Option ℚ}
    {a : A} {t : ℕ} (h : ∀ a' s, s ≤ t → raw₁ a' s = raw₂ a' s) :
    rollingVol P raw₁ a t = rollingVol P raw₂ a t := by
  unfold rollingVol
  by_cases hg : t + 1 < P.n ∨ P.n ≤ 1
  · rw [if_pos hg, if_pos hg]
  · rw [if_neg hg, if_neg hg]
    rw [windowVar_congr fun s hs =>
      dailyRet_congr fun u hu => h a u (le_trans hu hs)]

theorem rollingRet_congr {P : RotParams A} {raw₁ raw₂ : A → ℕ → Option ℚ}
    {a : A} {t : ℕ} (h : ∀ a' s, s ≤ t → raw₁ a' s = raw₂ a' s) :
    rollingRet P raw₁ a t = rollingRet P raw₂ a t := by
  unfold rollingRet
  by_cases hg : t < P.n
  · rw [if_pos hg, if_pos hg]
  · rw [if_neg hg, if_neg hg]
    rw [ffill_congr (fun s hs => h a s (le_trans hs (Nat.sub_le t P.n))),
      ffill_congr (fun s hs => h a s hs)]

theorem factorAt_congr {P : RotParams A} {raw₁ raw₂ : A → ℕ → Option ℚ}
    {a : A} {t : ℕ} (h : ∀ a' s, s ≤ t → raw₁ a' s = raw₂ a' s) :
    factorAt P raw₁ a t = factorAt P raw₂ a t := by
  unfold factorAt
  rw [rollingRet_congr h, rollingVol_congr h]

theorem corrAt_congr {P : RotParams A} {raw₁ raw₂ : A → ℕ → Option ℚ}
    {a b : A} {t : ℕ} (h : ∀ a' s, s ≤ t → raw₁ a' s = raw₂ a' s) :
    corrAt P raw₁ a b t = corrAt P raw₂ a b t := by
  unfold corrAt
  rw [windowVar_congr fun s hs => dailyRet_congr fun u hu => h a u (le_trans hu hs),
    windowVar_congr fun s hs => dailyRet_congr fun u hu => h b u (le_trans hu hs),
    windowCov_congr (fun s hs => dailyRet_congr fun u hu => h a u (le_trans hu hs))
      (fun s hs => dailyRet_congr fun u hu => h b u (le_trans hu hs))]

theorem corrGT_congr {P : RotParams A} {raw₁ raw₂ : A → ℕ → Option ℚ}
    {t : ℕ} {a b : A} (h : ∀ a' s, s ≤ t → raw₁ a' s = raw₂ a' s) :
    corrGT P raw₁ t a b = corrGT P raw₂ t a b := by
  unfold corrGT
  rw [corrAt_congr h]

theorem stoppedOf_congr {P : RotParams A} {raw₁ raw₂ : A → ℕ → Option ℚ}
    {prev : List A} {t : ℕ} (h : ∀ a' s, s ≤ t → raw₁ a' s = raw₂ a' s) :
    stoppedOf P raw₁ prev t = stoppedOf P raw₂ prev t := by
  unfold stoppedOf
  apply List.filter_congr
  intro a _
  rw [dailyRet_congr fun u hu => h a u hu]

theorem dayFactors_congr {P : RotParams A} {raw₁ raw₂ : A → ℕ → Option ℚ}
    {t : ℕ} {stopped : List A} (h : ∀ a' s, s ≤ t → raw₁ a' s = raw₂ a' s) :
    dayFactors P raw₁ t stopped = dayFactors P raw₂ t stopped := by
  unfold dayFactors
  apply List.filterMap_congr
  intro a _
  rw [factorAt_congr h]

theorem selectAt_congr {P : RotParams A} {raw₁ raw₂ : A → ℕ → Option ℚ}
    {t : ℕ} {cands : List (A × ℚ)}
    (h : ∀ a' s, s ≤ t → raw₁ a' s = raw₂ a' s) :
    selectAt P raw₁ t cands = selectAt P raw₂ t cands := by
  unfold selectAt
  have hbad : (fun a s => corrGT P raw₁ t a s) = fun a s => corrGT P raw₂ t a s :=
    funext fun a => funext fun s => corrGT_congr h
  rw [hbad]

theorem stepSL_congr {P : RotParams A} {raw₁ raw₂ : A → ℕ → Option ℚ}
    {t : ℕ} {prev : List A} (h : ∀ a' s, s ≤ t → raw₁ a' s = raw₂ a' s) :
    stepSL P raw₁ t prev = stepSL P raw₂ t prev := by
  simp only [stepSL]
  rw [stoppedOf_congr h, dayFactors_congr h, selectAt_congr h]

theorem prevSL_congr {P : RotParams A} {raw₁ raw₂ : A → ℕ → Option ℚ} :
    ∀ {t : ℕ}, (∀ a' s, s < t → raw₁ a' s = raw₂ a' s) →
      prevSL P raw₁ t = prevSL P raw₂ t := by
  intro t
  induction t with
  | zero => intro _; rfl
  | succ v ih =>
    intro h
    unfold prevSL
    by_cases hg : v + 1 ≤ max P.n P.k
    · rw [if_pos hg, if_pos hg]
    · rw [if_neg hg, if_neg hg]
      rw [ih fun a' s hs => h a' s (Nat.lt_succ_of_lt hs),
        stepSL_congr fun a' s hs => h a' s (Nat.lt_succ_of_le hs)]

theorem signalsSL_congr {P : RotParams A} {raw₁ raw₂ : A → ℕ → Option ℚ}
    {t : ℕ} (h : ∀ a' s, s ≤ t → raw₁ a' s = raw₂ a' s) :
    signalsSL P raw₁ t = signalsSL P raw₂ t := by
  unfold signalsSL
  by_cases hg : max P.n P.k ≤ t ∧ t < P.T
  · rw [if_pos hg, if_pos hg]
    rw [prevSL_congr fun a' s hs => h a' s (le_of_lt hs), stepSL_congr h]
  · rw [if_neg hg, if_neg hg]

/-- **C1.** No look-ahead: for a calendar position `i`, the weights
returned by the stop-loss rotation strategy's `get_target_weights` depend
only on raw price data at positions strictly before `i` — two data maps
over the same calendar that agree below `i` produce identical weight
mappings at `i`, because the strategy reads the signal precomputed for the
immediately preceding trading day. -/
theorem c1_no_lookahead (P : RotParams A) (raw₁ raw₂ : A → ℕ → Option ℚ)
    (i : ℕ) (hagree : ∀ a s, s < i → raw₁ a s = raw₂ a s) :
    targetWeightsSL P raw₁ i = targetWeightsSL P raw₂ i := by
  unfold targetWeightsSL
  by_cases hT : P.T ≤ i
  · rw [if_pos hT, if_pos hT]
  · rw [if_neg hT, if_neg hT]
    by_cases h0 : i = 0
    · rw [if_pos h0, if_pos h0]
    · rw [if_neg h0, if_neg h0]
      rw [signalsSL_congr fun a s hs => hagree a s (by omega)]

/-! ### Factor-floor weights -/

theorem sum_map_const (l : List A) (c : ℚ) :
    (l.map fun _ => c).sum = (l.length : ℚ) * c := by
  induction l with
  | nil => simp
  | cons x xs ih =>
    simp only [List.map_cons, List.sum_cons, ih, List.length_cons]
    push_cast
    ring

/-- A factor-floor signal never holds more than `M` assets. -/
theorem signalsFF_length_le {P : RotParams A} {raw : A → ℕ → Option ℚ}
    {floor : ℚ} {t : ℕ} {sel : List A}
    (hsig : signalsFF P raw floor t = some sel) : sel.length ≤ P.m := by
  unfold signalsFF at hsig
  by_cases hproc : max P.n P.k ≤ t ∧ t < P.T
  · rw [if_pos hproc] at hsig
    obtain rfl := Option.some_injective _ hsig
    simp only [stepFF]
    by_cases hemp : (dayFactorsFF P raw floor t
        (stoppedOf P raw (prevFF P raw floor t) t)).isEmpty
    · rw [if_pos hemp]
      simp
    · rw [if_neg hemp]
      exact selectAt_length P raw t _
  · rw [if_neg hproc] at hsig
    exact absurd hsig (by simp)

/-- **C7.** Factor-floor variant weights: for a calendar position `i` whose
previous trading day carries a nonempty signal `sel`, `get_target_weights`
assigns weight exactly `1/M` to each selected asset, so the weights sum to
`|sel|/M`, which is at most `1` because the selection never exceeds `M`
assets; unfilled slots stay implicit cash. -/
theorem c7_factor_floor_weights (P : RotParams A) (raw : A → ℕ → Option ℚ)
    (floor : ℚ) (i : ℕ) (sel : List A)
    (hT : i < P.T) (h0 : 0 < i)
    (hsig : signalsFF P raw floor (i - 1) = some sel) (hne : sel ≠ []) :
    targetWeightsFF P raw floor i = sel.map (fun a => (a, 1 / (P.m : ℚ))) ∧
    ((targetWeightsFF P raw floor i).map Prod.snd).sum
      = (sel.length : ℚ) / (P.m : ℚ) ∧
    sel.length ≤ P.m ∧
    ((targetWeightsFF P raw floor i).map Prod.snd).sum ≤ 1 := by
  have hw : targetWeightsFF P raw floor i
      = sel.map fun a => (a, 1 / (P.m : ℚ)) := by
    unfold targetWeightsFF
    rw [if_neg (not_le.mpr hT), if_neg (Nat.pos_iff_ne_zero.mp h0), hsig]
    dsimp only
    rw [if_neg (by simpa [List.isEmpty_iff] using hne)]
  have hlen : sel.length ≤ P.m := signalsFF_length_le hsig
  have hsum : ((targetWeightsFF P raw floor i).map Prod.snd).sum
      = (sel.length : ℚ) / (P.m : ℚ) := by
    rw [hw, List.map_map]
    have hcomp : (Prod.snd ∘ fun a : A => (a, 1 / (P.m : ℚ)))
        = fun _ => 1 / (P.m : ℚ) := rfl
    rw [hcomp, sum_map_const, mul_one_div]
  refine ⟨hw, hsum, hlen, ?_⟩
  rw [hsum]
  have hm : 0 < P.m := by
    rcases Nat.eq_zero_or_pos P.m with hz | hpos
    · exfalso
      apply hne
      rw [hz] at hlen
      exact List.length_eq_zero.mp (Nat.le_zero.mp hlen)
    · exact hpos
  rw [div_le_one (by exact_mod_cast hm)]
  exact_mod_cast hlen

/-! ### Metrics and data-preparation claims -/

/-- **C5.** The claim asserts that `get_metrics` of a non-empty run
contains a Sharpe-ratio entry; in fact the returned mapping carries
exactly the keys `Annualized Return`, `Max Drawdown`, `Sortino Ratio`,
`Calmar Ratio`, and no Sharpe entry at all — even though the strategy
optimizer (`GridSearchOptimizer._print_row` and the `metric='sharpe'`
score) and the CLI menus read `metrics['Sharpe Ratio']` from this very
mapping. -/
theorem c5_metrics_no_sharpe (rpow : ℚ → ℚ → ℚ) (sqrtQ : ℚ → ℚ)
    (cap : ℚ) (hist : List ℚ) (hne : hist ≠ []) :
    (getMetrics rpow sqrtQ cap hist).map Prod.fst
      = ["Annualized Return", "Max Drawdown", "Sortino Ratio", "Calmar Ratio"]
    ∧ "Sharpe Ratio" ∉ (getMetrics rpow sqrtQ cap hist).map Prod.fst := by
  cases hist with
  | nil => exact absurd rfl hne
  | cons x xs =>
    have hkeys : (getMetrics rpow sqrtQ cap (x :: xs)).map Prod.fst
        = ["Annualized Return", "Max Drawdown", "Sortino Ratio",
            "Calmar Ratio"] := rfl
    refine ⟨hkeys, ?_⟩
    rw [hkeys]
    simp

/-- Witness for C5 at a concrete two-day history. -/
theorem c5_metrics_no_sharpe_witness :
    c5hist ≠ [] ∧
    (getMetrics c5powEx c5sqrtEx 100000 c5hist).map Prod.fst
      = ["Annualized Return", "Max Drawdown", "Sortino Ratio", "Calmar Ratio"]
    ∧ "Sharpe Ratio" ∉ (getMetrics c5powEx c5sqrtEx 100000 c5hist).map Prod.fst :=
  ⟨by simp [c5hist],
    c5_metrics_no_sharpe c5powEx c5sqrtEx 100000 c5hist (by simp [c5hist])⟩

/-- **C9, counterexample.** `_prepare_data` does not raise any
`InsufficientDataError` — no such class exists in the repository; with
zero assets carrying both price columns it raises
`ValueError("No valid data found")`. -/
theorem c9_alignment_counterexample :
    prepareData 0 c9dmBad
      = Except.error ⟨"ValueError", "No valid data found"⟩ ∧
    "ValueError" ≠ "InsufficientDataError" := by
  constructor
  · rfl
  · decide

/-- **C9, amended.** Preparing the aligned tables fails — with
`ValueError("No valid data found")`, not an `InsufficientDataError` —
exactly when zero input assets have both the `open` and `close` columns;
when at least one asset has them, preparation succeeds as a pure transform
whose available-asset list is the valid columns in order. -/
theorem c9_alignment_amended (startDate : ℕ) (dm : List (A × PyFrame)) :
    (prepareData startDate dm
        = Except.error ⟨"ValueError", "No valid data found"⟩
      ↔ (dm.filter fun p => hasPriceCols p.2).isEmpty = true) ∧
    ((dm.filter fun p => hasPriceCols p.2).isEmpty = false →
      ∃ out, prepareData startDate dm = Except.ok out ∧
        out.availableAssets
          = ((dm.filter fun p => hasPriceCols p.2).map Prod.fst)) := by
  constructor
  · constructor
    · intro h
      by_cases he : (dm.filter fun p => hasPriceCols p.2).isEmpty = true
      · exact he
      · exfalso
        simp only [prepareData] at h
        rw [if_neg he] at h
        exact absurd h (by simp)
    · intro he
      simp only [prepareData]
      rw [if_pos he]
  · intro he
    simp only [prepareData]
    rw [if_neg (by simp [he])]
    exact ⟨_, rfl, rfl⟩

/-- Witness for the amended C9 at a one-asset data map with both
columns: preparation succeeds. -/
theorem c9_alignment_amended_witness :
    ((c9dmGood.filter fun p => hasPriceCols p.2).isEmpty = false) ∧
    (prepareData 0 c9dmGood).toOption.isSome = true := by
  refine ⟨by decide, ?_⟩
  obtain ⟨out, hok, _⟩ := (c9_alignment_amended 0 c9dmGood).2 (by decide)
  rw [hok]
  rfl

/-! ### Evaluation of the witness scenario -/

theorem wP_assets : wP.assets = [0, 1] := rfl

theorem wP_T : wP.T = 4 := rfl

theorem wP_m : wP.m = 2 := rfl

theorem wP_n : wP.n = 2 := rfl

theorem wP_k : wP.k = 2 := rfl

theorem wP_sl : wP.stopLossPct = 1/20 := rfl

theorem ws_fac0_2 : factorAt wP wraw 0 2 = some 2 := by
  norm_num [factorAt, rollingRet, rollingVol, windowVar, windowMean, dailyRet,
    ffill, wP, wraw, Finset.sum_range_succ, Finset.sum_range_zero]

theorem ws_fac1_2 : factorAt wP wraw 1 2 = some 4 := by
  norm_num [factorAt, rollingRet, rollingVol, windowVar, windowMean, dailyRet,
    ffill, wP, wraw, Finset.sum_range_succ, Finset.sum_range_zero]

theorem ws_fac0_3 : factorAt wP wraw 0 3 = some 4 := by
  norm_num [factorAt, rollingRet, rollingVol, windowVar, windowMean, dailyRet,
    ffill, wP, wraw, Finset.sum_range_succ, Finset.sum_range_zero]

theorem ws_fac1_3 : factorAt wP wraw 1 3 = some 0 := by
  norm_num [factorAt, rollingRet, rollingVol, windowVar, windowMean, dailyRet,
    ffill, wP, wraw, Finset.sum_range_succ, Finset.sum_range_zero]

theorem ws_corr_2 : corrGT wP wraw 2 0 1 = false := by
  norm_num [corrGT, corrAt, windowCov, windowVar, windowMean, dailyRet,
    ffill, wP, wraw, Finset.sum_range_succ, Finset.sum_range_zero]

theorem ws_ret0_3 : dailyRet wraw 0 3 = 1/2 := by
  norm_num [dailyRet, ffill, wraw]

theorem ws_ret1_3 : dailyRet wraw 1 3 = -(1/3) := by
  norm_num [dailyRet, ffill, wraw]

theorem ws_sigSL_2 : signalsSL wP wraw 2 = some [1, 0] := by
  norm_num [signalsSL, stepSL, prevSL, stoppedOf, dayFactors, selectAt,
    sortByFactorDesc, List.insertionSort, List.orderedInsert, greedyGo,
    ws_fac0_2, ws_fac1_2, ws_corr_2, List.filterMap_cons, List.filterMap_nil,
    wP_assets, wP_T, wP_m, wP_n, wP_k]

theorem ws_prevSL_3 : prevSL wP wraw 3 = [1, 0] := by
  norm_num [prevSL, stepSL, stoppedOf, dayFactors, selectAt,
    sortByFactorDesc, List.insertionSort, List.orderedInsert, greedyGo,
    ws_fac0_2, ws_fac1_2, ws_corr_2, List.filterMap_cons, List.filterMap_nil,
    wP_assets, wP_m, wP_n, wP_k]

theorem ws_sigSL_3 : signalsSL wP wraw 3 = some [0] := by
  norm_num [signalsSL, stepSL, stoppedOf, dayFactors, selectAt,
    sortByFactorDesc, List.insertionSort, List.orderedInsert, greedyGo,
    ws_prevSL_3, ws_ret0_3, ws_ret1_3, ws_fac0_3, ws_fac1_3,
    List.filterMap_cons, List.filterMap_nil, List.filter_cons, List.filter_nil,
    wP_assets, wP_T, wP_m, wP_n, wP_k, wP_sl]

theorem ws_sigFF_2 : signalsFF wP wraw 0 2 = some [1, 0] := by
  norm_num [signalsFF, stepFF, prevFF, dayFactorsFF, stoppedOf, dayFactors,
    selectAt, sortByFactorDesc, List.insertionSort, List.orderedInsert,
    greedyGo, ws_fac0_2, ws_fac1_2, ws_corr_2, List.filterMap_cons,
    List.filterMap_nil, List.filter_cons, List.filter_nil,
    wP_assets, wP_T, wP_m, wP_n, wP_k]

theorem ws_c8fac0 : factorAt wP c8raw 0 2 = some 2 := by
  norm_num [factorAt, rollingRet, rollingVol, windowVar, windowMean, dailyRet,
    ffill, wP, c8raw, Finset.sum_range_succ, Finset.sum_range_zero]

theorem ws_c8fac1 : factorAt wP c8raw 1 2 = none := by
  norm_num [factorAt, rollingRet, rollingVol, windowVar, windowMean, dailyRet,
    ffill, wP, c8raw, Finset.sum_range_succ, Finset.sum_range_zero]

theorem ws_c8sig : signalsSL wP c8raw 2 = some [0] := by
  norm_num [signalsSL, stepSL, prevSL, stoppedOf, dayFactors, selectAt,
    sortByFactorDesc, List.insertionSort, List.orderedInsert, greedyGo,
    ws_c8fac0, ws_c8fac1, List.filterMap_cons, List.filterMap_nil,
    wP_assets, wP_T, wP_m, wP_n, wP_k]

/-! ### Strategy claim witnesses -/

/-- Witness for C1: the two data maps differ at position `3` (and only
there), yet the weights returned for position `3` coincide. -/
theorem c1_no_lookahead_witness :
    targetWeightsSL wP wraw 3 = targetWeightsSL wP wraw2 3 ∧
    wraw 0 3 ≠ wraw2 0 3 :=
  ⟨c1_no_lookahead wP wraw wraw2 3
      (by
        intro a s hs
        have h3 : s ≠ 3 := by omega
        simp [wraw2, h3]),
    by norm_num [wraw, wraw2]⟩

/-- Witness for C2 at the concrete scenario: the day-2 signal `[1, 0]`
fills `M = 2` slots and its (single) distinct pair is below the
correlation ceiling. -/
theorem c2_selection_invariant_witness :
    signalsSL wP wraw 2 = some [1, 0] ∧
    ([1, 0] : List (Fin 2)).length ≤ wP.m ∧
    corrGT wP wraw 2 1 0 = false :=
  ⟨ws_sigSL_2,
    (c2_selection_invariant wP wraw 0 2 [1, 0] (Or.inl ws_sigSL_2)).1,
    (c2_selection_invariant wP wraw 0 2 [1, 0] (Or.inl ws_sigSL_2)).2
      1 (by simp) 0 (by simp) (by decide)⟩

/-- Witness for C6: asset `1`, held after day 2, drops by a third on day 3
(beyond the 5% stop), and indeed vanishes from the day-3 signal `[0]`. -/
theorem c6_stop_loss_exclusion_witness :
    dailyRet wraw 1 3 < -wP.stopLossPct ∧
    (1 : Fin 2) ∈ prevSL wP wraw 3 ∧
    signalsSL wP wraw 3 = some [0] ∧
    (1 : Fin 2) ∉ ([0] : List (Fin 2)) := by
  have hproc : max wP.n wP.k ≤ 3 ∧ 3 < wP.T := by
    rw [wP_n, wP_k, wP_T]
    norm_num
  have hprev : (1 : Fin 2) ∈ prevSL wP wraw 3 := by
    rw [ws_prevSL_3]
    simp
  have hdrop : dailyRet wraw 1 3 < -wP.stopLossPct := by
    rw [ws_ret1_3, wP_sl]
    norm_num
  exact ⟨hdrop, hprev, ws_sigSL_3,
    (c6_stop_loss_exclusion wP wraw 3 1 hproc hprev hdrop).2 [0] ws_sigSL_3⟩

/-- Witness for C7: the day-2 factor-floor signal `[1, 0]` is paid weight
`1/M = 1/2` per asset on day 3, summing to `1 ≤ 1`. -/
theorem c7_factor_floor_weights_witness :
    signalsFF wP wraw 0 2 = some [1, 0] ∧
    targetWeightsFF wP wraw 0 3
      = ([1, 0] : List (Fin 2)).map (fun a => (a, 1 / (wP.m : ℚ))) ∧
    ((targetWeightsFF wP wraw 0 3).map Prod.snd).sum ≤ 1 := by
  have h := c7_factor_floor_weights wP wraw 0 3 [1, 0]
    (by rw [wP_T]; norm_num) (by norm_num) ws_sigFF_2 (by simp)
  exact ⟨ws_sigFF_2, h.1, h.2.2.2⟩

/-- Witness for C8: asset `1` has no observation before position `2`,
hence an undefined factor at `2`, and the day-2 signal is `[0]` without
it. -/
theorem c8_insufficient_history_witness :
    factorAt wP c8raw 1 2 = none ∧
    signalsSL wP c8raw 2 = some [0] ∧
    (1 : Fin 2) ∉ ([0] : List (Fin 2)) := by
  have hshort : ∀ s, s + wP.n ≤ 2 + 1 → c8raw 1 s = none := by
    intro s hs
    rw [wP_n] at hs
    have h2 : s < 2 := by omega
    simp [c8raw, h2]
  have h := c8_insufficient_history wP c8raw 1 2 hshort
  exact ⟨h.1, ws_c8sig, h.2 [0] ws_c8sig⟩

end QuantSys
